import Mathlib

/-!
Verification of the streaming chat transport implemented in `src/Script.js`
(`sendMessage`, lines 327-441, and `abortStream`, lines 317-325).

The code is shallowly embedded over `List Char` (a JavaScript string is a
sequence of characters; `TextDecoder` with `stream:true` reassembles
multi-byte code points across reads, so chunk boundaries are modelled at
character granularity).  JavaScript built-ins used by the code
(`String.prototype.split`, `String.prototype.trim`, `String.prototype.replace`
with the anchored regex `^data:\s?`, `JSON.parse`, string coercion and
truthiness) are modelled by executable Lean functions below, each documented
at its definition.
-/

namespace PalmsChat

/-- Character class of the JavaScript regex `\s` / `String.prototype.trim`
(ASCII whitespace plus NBSP; the rarely used exotic Unicode space characters
are omitted from the model). -/
def isJsWs (c : Char) : Bool :=
  ([' ', '\t', '\n', '\r', '\x0b', '\x0c', '\u00A0'] : List Char).contains c

/-- Models `String.prototype.trim`: drop leading and trailing whitespace. -/
def jsTrim (s : List Char) : List Char :=
  ((s.dropWhile isJsWs).reverse.dropWhile isJsWs).reverse

/-- The five characters of the SSE data marker `data:`. -/
def dataColon : List Char := 'd' :: 'a' :: 't' :: 'a' :: ':' :: []

/-- Models `l.replace(/^data:\s?/, '')` (Script.js line 377): if the line
starts with `data:`, remove it together with at most one following
whitespace character; otherwise the line is unchanged. -/
def stripData (l : List Char) : List Char :=
  if l.take 5 = dataColon then
    match l.drop 5 with
    | c :: r => if isJsWs c then r else c :: r
    | [] => []
  else l

/-- Models `part.split(/\n/)` (Script.js line 377): split at every newline. -/
def splitNL : List Char → List (List Char)
  | [] => [[]]
  | c :: rest =>
    if c = '\n' then [] :: splitNL rest
    else
      match splitNL rest with
      | s :: ss => (c :: s) :: ss
      | [] => [[c]]

/-- Models lines 373-374 of Script.js:
`const parts = buffer.split(/\n\n/); buffer = parts.pop();`.
Returns the completed blocks (all fragments before the final one of the
split, i.e. the fragments terminated by a blank line) together with the
unterminated remainder that stays in the buffer.  Splitting is at the
leftmost, non-overlapping occurrences of `"\n\n"`, exactly as
`String.prototype.split` with that separator behaves. -/
def splitStream : List Char → List (List Char) × List Char
  | [] => ([], [])
  | [x] => ([], [x])
  | x :: y :: rest =>
    if x = '\n' ∧ y = '\n' then
      let pr := splitStream rest
      ([] :: pr.1, pr.2)
    else
      let pr := splitStream (y :: rest)
      match pr.1 with
      | [] => ([], x :: pr.2)
      | p :: ps => ((x :: p) :: ps, pr.2)

/-! ### JSON model

`JSON.parse` (used at Script.js line 396) is a platform built-in; it is
modelled by an executable recursive-descent parser over the JSON grammar,
returning `none` exactly when `JSON.parse` would throw a `SyntaxError`.
Numbers are kept in their literal form (sign, integer digits, fraction
digits, exponent digits): the streaming code only ever consults truthiness
and string coercion of parsed values. -/

inductive JsonValue where
  | jnull : JsonValue
  | jbool (b : Bool) : JsonValue
  | jnum (neg : Bool) (ip fp ep : List Char) : JsonValue
  | jstr (s : List Char) : JsonValue
  | jarr (elems : List JsonValue) : JsonValue
  | jobj (fields : List (List Char × JsonValue)) : JsonValue

/-- JSON whitespace accepted between tokens by `JSON.parse`. -/
def isJsonWs (c : Char) : Bool :=
  ([' ', '\t', '\n', '\r'] : List Char).contains c

def skipWs (s : List Char) : List Char := s.dropWhile isJsonWs

def isDigit (c : Char) : Bool := '0' ≤ c && c ≤ '9'

def isHexDigit (c : Char) : Bool :=
  isDigit c || ('a' ≤ c && c ≤ 'f') || ('A' ≤ c && c ≤ 'F')

def hexVal (c : Char) : Nat :=
  if isDigit c then c.toNat - '0'.toNat
  else if 'a' ≤ c then c.toNat - 'a'.toNat + 10
  else c.toNat - 'A'.toNat + 10

/-- The table of two-character JSON string escapes: escape letter paired
with the character it denotes. -/
def escTable : List (Char × Char) :=
  [('"', '"'), ('\\', '\\'), ('/', '/'), ('b', '\x08'),
   ('f', '\x0c'), ('n', '\n'), ('r', '\r'), ('t', '\t')]

/-- Single-character JSON string escapes, via the table. -/
def escChar (c : Char) : Option Char :=
  (escTable.find? (fun pc => pc.1 == c)).map (fun pc => pc.2)

/-- Parse the body of a JSON string (the opening quote already consumed),
returning the decoded characters and the input after the closing quote. -/
def parseStrBody : List Char → Option (List Char × List Char)
  | [] => none
  | '"' :: r => some ([], r)
  | '\\' :: 'u' :: h1 :: h2 :: h3 :: h4 :: r =>
    if isHexDigit h1 && isHexDigit h2 && isHexDigit h3 && isHexDigit h4 then
      (fun p => (Char.ofNat (((hexVal h1 * 16 + hexVal h2) * 16 + hexVal h3) * 16 + hexVal h4) :: p.1, p.2)) <$>
        parseStrBody r
    else none
  | '\\' :: e :: r =>
    match escChar e with
    | some c => (fun p => (c :: p.1, p.2)) <$> parseStrBody r
    | none => none
  | c :: r =>
    if c.toNat < 32 then none
    else (fun p => (c :: p.1, p.2)) <$> parseStrBody r

def digitSpan (s : List Char) : List Char × List Char :=
  (s.takeWhile isDigit, s.dropWhile isDigit)

/-- Parse an optional exponent part after the integer and fraction parts. -/
def parseExpPart (neg : Bool) (ip fp : List Char) (s : List Char) :
    Option (JsonValue × List Char) :=
  match s with
  | e :: r =>
    if e == 'e' || e == 'E' then
      let sr : List Char × List Char :=
        match r with
        | '+' :: r2 => (['+'], r2)
        | '-' :: r2 => (['-'], r2)
        | _ => ([], r)
      let ds := digitSpan sr.2
      if ds.1.isEmpty then none
      else some (.jnum neg ip fp (sr.1 ++ ds.1), ds.2)
    else some (.jnum neg ip fp [], e :: r)
  | [] => some (.jnum neg ip fp [], [])

/-- Parse an optional fraction part after the integer part. -/
def parseFracPart (neg : Bool) (ip : List Char) (s : List Char) :
    Option (JsonValue × List Char) :=
  match s with
  | '.' :: r =>
    let ds := digitSpan r
    if ds.1.isEmpty then none else parseExpPart neg ip ds.1 ds.2
  | _ => parseExpPart neg ip [] s

/-- Parse a JSON number literal. -/
def parseNumber (s : List Char) : Option (JsonValue × List Char) :=
  let sg : Bool × List Char := match s with | '-' :: r => (true, r) | _ => (false, s)
  match sg.2 with
  | '0' :: r => parseFracPart sg.1 ['0'] r
  | c :: r =>
    if isDigit c then
      let ds := digitSpan r
      parseFracPart sg.1 (c :: ds.1) ds.2
    else none
  | [] => none

mutual

/-- Parse a single JSON value (leading whitespace already skipped).  The
`Nat` argument is recursion fuel, always instantiated large enough for the
input at hand (`jsonParse` passes the input length). -/
def parseVal : Nat → List Char → Option (JsonValue × List Char)
  | 0, _ => none
  | _ + 1, [] => none
  | fuel + 1, c :: r =>
    if c == 'n' then
      match r with
      | 'u' :: 'l' :: 'l' :: r2 => some (.jnull, r2)
      | _ => none
    else if c == 't' then
      match r with
      | 'r' :: 'u' :: 'e' :: r2 => some (.jbool true, r2)
      | _ => none
    else if c == 'f' then
      match r with
      | 'a' :: 'l' :: 's' :: 'e' :: r2 => some (.jbool false, r2)
      | _ => none
    else if c == '"' then
      (fun p => (JsonValue.jstr p.1, p.2)) <$> parseStrBody r
    else if c == '[' then
      match skipWs r with
      | ']' :: r2 => some (.jarr [], r2)
      | s1 => (fun p => (JsonValue.jarr p.1, p.2)) <$> parseElems fuel s1
    else if c == '\x7b' then
      match skipWs r with
      | '\x7d' :: r2 => some (.jobj [], r2)
      | s1 => (fun p => (JsonValue.jobj p.1, p.2)) <$> parseMembers fuel s1
    else if c == '-' || isDigit c then parseNumber (c :: r)
    else none

/-- Parse the elements of a non-empty JSON array. -/
def parseElems : Nat → List Char → Option (List JsonValue × List Char)
  | 0, _ => none
  | fuel + 1, s =>
    match parseVal fuel (skipWs s) with
    | none => none
    | some (v, r) =>
      match skipWs r with
      | ',' :: r2 => (fun p => (v :: p.1, p.2)) <$> parseElems fuel r2
      | ']' :: r2 => some ([v], r2)
      | _ => none

/-- Parse the members of a non-empty JSON object. -/
def parseMembers : Nat → List Char → Option (List (List Char × JsonValue) × List Char)
  | 0, _ => none
  | fuel + 1, s =>
    match s with
    | '"' :: r =>
      match parseStrBody r with
      | none => none
      | some (k, r1) =>
        match skipWs r1 with
        | ':' :: r2 =>
          match parseVal fuel (skipWs r2) with
          | none => none
          | some (v, r3) =>
            match skipWs r3 with
            | ',' :: r4 => (fun p => ((k, v) :: p.1, p.2)) <$> parseMembers fuel (skipWs r4)
            | '\x7d' :: r4 => some ([(k, v)], r4)
            | _ => none
        | _ => none
    | _ => none

end

/-- Models `JSON.parse` on a whole line: `none` when it would throw. -/
def jsonParse (s : List Char) : Option JsonValue :=
  match parseVal (s.length + 1) (skipWs s) with
  | some (v, r) => if (skipWs r).isEmpty then some v else none
  | none => none

/-- JavaScript truthiness of a parsed JSON value (`if (obj.error)`,
`if (obj.chunk)`, `else if (obj.partial)`): `null`, `false`, `0` and the
empty string are falsy; every object and array is truthy. -/
def truthy : JsonValue → Bool
  | .jnull => false
  | .jbool b => b
  | .jnum _ ip fp _ => (ip ++ fp).any (fun c => c != '0')
  | .jstr s => !s.isEmpty
  | .jarr _ => true
  | .jobj _ => true

/-- Property lookup `obj.key` for non-null values: on an object, the last
binding of the key wins (as `JSON.parse` keeps the last duplicate key); on
any other value the named property is absent (`undefined`, which is falsy).
Lookup on `null` throws in JavaScript and is handled separately via
`isNull`. -/
def lookupField (v : JsonValue) (k : List Char) : Option JsonValue :=
  match v with
  | .jobj fields =>
    List.foldl (fun r kv => if kv.1 = k then some kv.2 else r) none fields
  | _ => none

def isNull : JsonValue → Bool
  | .jnull => true
  | _ => false

/-- One-level JavaScript string coercion used for array elements (arrays
stringify as their comma-joined elements; nested containers are
approximated). -/
def jsToStrShallow : JsonValue → List Char
  | .jnull => ['n', 'u', 'l', 'l']
  | .jbool true => ['t', 'r', 'u', 'e']
  | .jbool false => ['f', 'a', 'l', 's', 'e']
  | .jnum neg ip fp ep =>
    (if neg then ['-'] else []) ++ ip ++
      (if fp.isEmpty then [] else '.' :: fp) ++
      (if ep.isEmpty then [] else 'e' :: ep)
  | .jstr s => s
  | .jarr _ => []
  | .jobj _ => "[object Object]".toList

/-- Models JavaScript string coercion `String(v)` as it occurs in
`'Error: ' + obj.error` and `accumulated += obj.chunk`: strings pass
through; numbers render from their literal parts (without the float
re-normalisation JavaScript applies, which no claim exercises); arrays
join their elements with commas, one level deep. -/
def jsToStr : JsonValue → List Char
  | .jarr l => List.intercalate [','] (l.map jsToStrShallow)
  | v => jsToStrShallow v

/-! ### Stream processing state

The body of the `while(true)` read loop (Script.js lines 367-418) is a pure
fold over delivered chunks.  A `SState` is either still running (carrying
the accumulator `accumulated` and the list of texts forwarded so far to
`updateLastBotContent`) or halted.  A halted state records why the loop
exited, the final accumulator, the forwarded texts, and whether the
assistant message was persisted into chat history
(`chatHistory.push(...); persistHistory()`). -/

inductive Status where
  /-- The `[DONE]` sentinel was processed (lines 380-392). -/
  | done : Status
  /-- The connection ended without `[DONE]` (lines 420-428). -/
  | eos : Status
  /-- A decoded object carried a truthy `error` field (lines 402-407). -/
  | errored (msg : List Char) : Status
  /-- A line parsed to JSON `null`, so `obj.error` threw a `TypeError`,
  caught by the outer catch as a streaming error (lines 429-440). -/
  | crashed : Status
  /-- The in-flight request was aborted: `reader.read()` rejected with an
  `AbortError` (lines 429-432). -/
  | cancelled : Status
deriving DecidableEq, Repr

structure Halt where
  status : Status
  acc : List Char
  forwards : List (List Char)
  persisted : Bool
deriving DecidableEq, Repr

inductive SState where
  | running (acc : List Char) (forwards : List (List Char)) : SState
  | halted (h : Halt) : SState
deriving DecidableEq, Repr

def errorKey : List Char := "error".toList
def chunkKey : List Char := "chunk".toList
def altKey : List Char := "partial".toList
def doneLit : List Char := "[DONE]".toList

/-- `else if (obj.partial) { accumulated += obj.partial; ... }`
(Script.js lines 411-415). -/
def procAlt (acc : List Char) (fwd : List (List Char)) (v : JsonValue) : SState :=
  match lookupField v altKey with
  | some p =>
    if truthy p then .running (acc ++ jsToStr p) (fwd ++ [acc ++ jsToStr p])
    else .running acc fwd
  | none => .running acc fwd

/-- `if (obj.chunk) { accumulated += obj.chunk; ... }` with fallthrough to
the `partial` field (Script.js lines 408-415). -/
def procChunk (acc : List Char) (fwd : List (List Char)) (v : JsonValue) : SState :=
  match lookupField v chunkKey with
  | some c =>
    if truthy c then .running (acc ++ jsToStr c) (fwd ++ [acc ++ jsToStr c])
    else procAlt acc fwd v
  | none => procAlt acc fwd v

/-- Processing of one already-stripped line (Script.js lines 378-416).  On
a halted state this is the identity: the JavaScript code has `return`ed and
processes nothing further. -/
def procCore (s : SState) (line : List Char) : SState :=
  match s with
  | .halted h => .halted h
  | .running acc fwd =>
    if line = [] then .running acc fwd
    else if jsTrim line = doneLit then
      .halted ⟨.done, acc, fwd, !(jsTrim acc).isEmpty⟩
    else
      match jsonParse line with
      | none => .running (acc ++ line) (fwd ++ [acc ++ line])
      | some v =>
        if isNull v then .halted ⟨.crashed, acc, fwd, false⟩
        else
          match lookupField v errorKey with
          | some e =>
            if truthy e then .halted ⟨.errored (jsToStr e), acc, fwd, false⟩
            else procChunk acc fwd v
          | none => procChunk acc fwd v

/-- Processing of one blank-line-separated block: split into lines, strip
the data marker from each, process in order (Script.js lines 376-416). -/
def procBlock (s : SState) (block : List Char) : SState :=
  List.foldl procCore s (List.map stripData (splitNL block))

def procBlocks (s : SState) (blocks : List (List Char)) : SState :=
  List.foldl procBlock s blocks

/-- One iteration of the read loop (Script.js lines 367-418): append the
delivered chunk to the buffer, split off the completed blocks, keep the
unterminated remainder as the new buffer, and process the blocks. -/
def feedChunk : SState × List Char → List Char → SState × List Char
  | (s, buffer), chunk =>
    let pr := splitStream (buffer ++ chunk)
    (procBlocks s pr.1, pr.2)

def initState : SState := .running [] []

/-- End of the read loop (`done` from the reader, Script.js lines 420-428):
if the stream is still running it completes as a clean end-of-stream,
persisting the assistant message when the accumulated text is non-empty
after trimming.  A state that already halted returned earlier. -/
def finalize : SState → Halt
  | .running acc fwd => ⟨.eos, acc, fwd, !(jsTrim acc).isEmpty⟩
  | .halted h => h

/-- A complete run of the streaming loop of `sendMessage` over the response
body delivered as the given sequence of chunks. -/
def runBody (chunks : List (List Char)) : Halt :=
  finalize (List.foldl feedChunk (initState, []) chunks).1

/-- A run in which `cancel` fires between the `k`-th and `(k+1)`-th read:
the first `k` chunks are processed normally; the next `reader.read()`
rejects with `AbortError` and the catch at lines 429-432 terminates the
send as Cancelled without persisting.  If the stream already halted within
the first `k` chunks, `sendMessage` returned before the abort, which is
then a no-op on the idle component. -/
def runCancelAt (k : Nat) (chunks : List (List Char)) : Halt :=
  match (List.foldl feedChunk (initState, []) (chunks.take k)).1 with
  | .running acc fwd => ⟨.cancelled, acc, fwd, false⟩
  | .halted h => h

/-- Statuses on which `sendMessage` pushes the assistant message into chat
history. -/
def statusPersists : Status → Bool
  | .done => true
  | .eos => true
  | _ => false

def stateForwards : SState → List (List Char)
  | .running _ fwd => fwd
  | .halted h => h.forwards

def isRunningState : SState → Bool
  | .running _ _ => true
  | .halted _ => false

/-- A block whose single line is the `[DONE]` sentinel with the data
marker, plus the blank-line terminator: appended to a body to model a
stream that ends with the sentinel. -/
def doneTail : List Char := "data: [DONE]\n\n".toList

/-! ### Component-level operations -/

/-- The mutable component flags: `streamController !== null` and
`streaming` are set together (Script.js lines 340-341) and cleared together
on every exit path, so one flag models both. -/
structure UiState where
  streamActive : Bool
deriving DecidableEq, Repr

/-- `abortStream` (Script.js lines 317-325): aborts and clears the
controller if one is active, otherwise does nothing. -/
def abortStream (u : UiState) : UiState :=
  if u.streamActive then ⟨false⟩ else u

/-- The guard on the send button and the Enter key
(`if (!streaming) sendMessage()`, Script.js lines 473-477). -/
def acceptsSend (u : UiState) : Bool := !u.streamActive

/-- The request payload `{ session_id: sessionId, message: text, model:
selectedModel }` (Script.js line 336). -/
structure ChatPayload where
  session_id : List Char
  message : List Char
  model : List Char
deriving DecidableEq, Repr

/-- The network requests issued by one `sendMessage` call for the given
raw input (Script.js lines 327-352): the input is trimmed; an empty result
returns before any request; otherwise exactly one POST to `/chat` carries
the payload. -/
def chatRequests (sid mdl input : List Char) : List ChatPayload :=
  if jsTrim input = [] then [] else [⟨sid, jsTrim input, mdl⟩]

/-- The message surfaced for a non-success HTTP status (Script.js lines
354-360): `err?.detail || res.statusText` where `err` is the parsed JSON
body or `null` when parsing failed. -/
def failureMessage (body : Option JsonValue) (statusText : List Char) : List Char :=
  match body with
  | none => statusText
  | some v =>
    match lookupField v ("detail".toList) with
    | some d => if truthy d then jsToStr d else statusText
    | none => statusText

inductive PreflightResult where
  | ok : PreflightResult
  | serverError (msg : List Char) : PreflightResult
deriving DecidableEq, Repr

/-- The status check after the fetch resolves (Script.js lines 354-360): a
non-success status surfaces the failure message and aborts; a success
status proceeds to streaming. -/
def preflight (resOk : Bool) (body : Option JsonValue) (statusText : List Char) :
    PreflightResult :=
  if resOk then .ok else .serverError (failureMessage body statusText)

/-! ### Proof-support definitions -/

/-- Invariant: in a halted state, the persisted flag is determined by the
status together with whether the trimmed accumulator is non-empty. -/
def persistOk : SState → Prop
  | .running _ _ => True
  | .halted h => h.persisted = (statusPersists h.status && !(jsTrim h.acc).isEmpty)

/-- `a` extended by further forwarded texts gives `b`. -/
def extendsTo (a b : List (List Char)) : Prop := ∃ t, a ++ t = b

/-! ### Theorems -/

theorem splitStream_fst_nil : ∀ (l : List Char), (splitStream l).1 = [] → (splitStream l).2 = l := by
  intro l
  induction l using splitStream.induct with
  | case1 => simp [splitStream]
  | case2 x => simp [splitStream]
  | case3 x y rest h ih => simp [splitStream, h]
  | case4 x y rest h pr hpr ih =>
    intro _
    have hpr' : (splitStream (y :: rest)).1 = [] := hpr
    have h2 := ih hpr'
    simp only [splitStream, if_neg h]
    rw [hpr']
    simp [h2]
  | case5 x y rest h pr p ps hpr ih =>
    have hpr' : (splitStream (y :: rest)).1 = p :: ps := hpr
    simp only [splitStream, if_neg h]
    rw [hpr']
    simp

/-- Incremental splitting composes: splitting `a ++ b` finds exactly the
blocks of `a`, then the blocks of `a`'s remainder prepended to `b`. -/
theorem splitStream_append (a b : List Char) :
    splitStream (a ++ b) =
      ((splitStream a).1 ++ (splitStream ((splitStream a).2 ++ b)).1,
       (splitStream ((splitStream a).2 ++ b)).2) := by
  induction a using splitStream.induct with
  | case1 => simp [splitStream]
  | case2 x => simp [splitStream]
  | case3 x y rest h ih =>
    simp only [List.cons_append]
    simp only [splitStream, if_pos h]
    rw [ih]
    simp
  | case4 x y rest h pr hpr ih =>
    have hpr' : (splitStream (y :: rest)).1 = [] := hpr
    have hsnd : (splitStream (y :: rest)).2 = y :: rest := splitStream_fst_nil _ hpr'
    simp only [List.cons_append]
    simp only [splitStream, if_neg h]
    rw [hpr', hsnd]
    simp only [List.nil_append, List.cons_append]
    conv_rhs => rw [splitStream]
    rw [if_neg h]
  | case5 x y rest h pr p ps hpr ih =>
    have hpr' : (splitStream (y :: rest)).1 = p :: ps := hpr
    simp only [List.cons_append] at ih ⊢
    simp only [splitStream, if_neg h]
    rw [ih, hpr']
    simp

theorem procBlocks_append (s : SState) (A B : List (List Char)) :
    procBlocks s (A ++ B) = procBlocks (procBlocks s A) B := by
  simp [procBlocks, List.foldl_append]

/-- Two consecutive reads are equivalent to one read of the concatenation:
the unterminated remainder kept in the buffer makes `feedChunk` a fold of a
monoid action. -/
theorem feedChunk_comp (s : SState) (buf c d : List Char) :
    feedChunk (feedChunk (s, buf) c) d = feedChunk (s, buf) (c ++ d) := by
  simp only [feedChunk]
  rw [← List.append_assoc, splitStream_append (buf ++ c) d]
  simp [procBlocks_append]

theorem foldl_feedChunk_flatten :
    ∀ (cs : List (List Char)) (p : SState × List Char) (c : List Char),
      List.foldl feedChunk p (c :: cs) = feedChunk p (c ++ cs.flatten) := by
  intro cs
  induction cs with
  | nil => intro p c; simp
  | cons c2 cs ih =>
    intro p c
    rw [List.foldl_cons, ih]
    obtain ⟨s, buf⟩ := p
    rw [feedChunk_comp]
    simp

/-- C1: chunk-boundary invariance.  For every response body and every way
of partitioning it into successively delivered chunks, the streaming loop
of `sendMessage` produces the same final state — identical sequence of
forwarded texts, identical final accumulated text, identical termination
status and persistence — as delivering the whole body in one chunk: the
unterminated trailing fragment of each read is retained in the buffer and
prepended to the next read before re-splitting on blank-line block
boundaries, so no data is dropped or duplicated across chunk boundaries. -/
theorem chunk_boundary_invariance (chunks : List (List Char)) :
    runBody chunks = runBody [chunks.flatten] := by
  cases chunks with
  | nil => rfl
  | cons c cs =>
    unfold runBody
    rw [foldl_feedChunk_flatten]
    simp

theorem procAlt_persistOk (acc : List Char) (fwd : List (List Char)) (v : JsonValue) :
    persistOk (procAlt acc fwd v) := by
  unfold procAlt
  split
  · split <;> trivial
  · trivial

theorem procChunk_persistOk (acc : List Char) (fwd : List (List Char)) (v : JsonValue) :
    persistOk (procChunk acc fwd v) := by
  unfold procChunk
  split
  · split
    · trivial
    · exact procAlt_persistOk acc fwd v
  · exact procAlt_persistOk acc fwd v

theorem procCore_persistOk (s : SState) (l : List Char) (hs : persistOk s) :
    persistOk (procCore s l) := by
  cases s with
  | halted h => exact hs
  | running acc fwd =>
    unfold procCore
    repeat' split
    all_goals first
      | trivial
      | exact procChunk_persistOk _ _ _

theorem foldl_preserve {α : Type} {β : Type} (P : α → Prop) (f : α → β → α)
    (hf : ∀ a b, P a → P (f a b)) :
    ∀ (l : List β) (a : α), P a → P (List.foldl f a l) := by
  intro l
  induction l with
  | nil => intro a ha; exact ha
  | cons b bs ih => intro a ha; exact ih (f a b) (hf a b ha)

theorem procBlock_persistOk (s : SState) (b : List Char) (hs : persistOk s) :
    persistOk (procBlock s b) :=
  foldl_preserve persistOk procCore procCore_persistOk _ s hs

theorem procBlocks_persistOk (s : SState) (bs : List (List Char)) (hs : persistOk s) :
    persistOk (procBlocks s bs) :=
  foldl_preserve persistOk procBlock procBlock_persistOk bs s hs

theorem feed_persistOk (p : SState × List Char) (c : List Char) (hp : persistOk p.1) :
    persistOk (feedChunk p c).1 := by
  obtain ⟨s, buf⟩ := p
  exact procBlocks_persistOk s _ hp

theorem runBody_persistOk (chunks : List (List Char)) :
    (runBody chunks).persisted =
      (statusPersists (runBody chunks).status && !(jsTrim (runBody chunks).acc).isEmpty) := by
  unfold runBody
  have h := foldl_preserve (fun p : SState × List Char => persistOk p.1) feedChunk
    feed_persistOk chunks (initState, []) trivial
  cases hs : (List.foldl feedChunk (initState, []) chunks).1 with
  | running acc fwd => simp [finalize, statusPersists]
  | halted hh =>
    have h2 : persistOk (List.foldl feedChunk (initState, []) chunks).1 := h
    rw [hs] at h2
    simpa [finalize, persistOk] using h2

theorem runCancelAt_persistOk (k : Nat) (chunks : List (List Char)) :
    (runCancelAt k chunks).persisted =
      (statusPersists (runCancelAt k chunks).status && !(jsTrim (runCancelAt k chunks).acc).isEmpty) := by
  unfold runCancelAt
  have h := foldl_preserve (fun p : SState × List Char => persistOk p.1) feedChunk
    feed_persistOk (chunks.take k) (initState, []) trivial
  cases hs : (List.foldl feedChunk (initState, []) (chunks.take k)).1 with
  | running acc fwd => simp [statusPersists]
  | halted hh =>
    have h2 : persistOk (List.foldl feedChunk (initState, []) (chunks.take k)).1 := h
    rw [hs] at h2
    simpa [persistOk] using h2

theorem extendsTo_refl (a : List (List Char)) : extendsTo a a := ⟨[], by simp⟩

theorem extendsTo_trans {a b c : List (List Char)} (h1 : extendsTo a b) (h2 : extendsTo b c) :
    extendsTo a c := by
  obtain ⟨t1, ht1⟩ := h1
  obtain ⟨t2, ht2⟩ := h2
  exact ⟨t1 ++ t2, by rw [← List.append_assoc, ht1, ht2]⟩

theorem procAlt_fwd (acc : List Char) (fwd : List (List Char)) (v : JsonValue) :
    extendsTo fwd (stateForwards (procAlt acc fwd v)) := by
  unfold procAlt
  repeat' split
  all_goals first
    | exact extendsTo_refl fwd
    | exact ⟨_, rfl⟩

theorem procChunk_fwd (acc : List Char) (fwd : List (List Char)) (v : JsonValue) :
    extendsTo fwd (stateForwards (procChunk acc fwd v)) := by
  unfold procChunk
  repeat' split
  all_goals first
    | exact procAlt_fwd _ _ _
    | exact ⟨_, rfl⟩

theorem procCore_fwd (s : SState) (l : List Char) :
    extendsTo (stateForwards s) (stateForwards (procCore s l)) := by
  cases s with
  | halted h => exact extendsTo_refl _
  | running acc fwd =>
    show extendsTo fwd _
    simp only [procCore]
    repeat' split
    all_goals first
      | exact extendsTo_refl _
      | exact procChunk_fwd _ _ _
      | exact ⟨_, rfl⟩

theorem foldl_ext {α : Type} {β : Type} (g : α → List (List Char)) (f : α → β → α)
    (hf : ∀ a b, extendsTo (g a) (g (f a b))) :
    ∀ (l : List β) (a : α), extendsTo (g a) (g (List.foldl f a l)) := by
  intro l
  induction l with
  | nil => intro a; exact extendsTo_refl _
  | cons b bs ih => intro a; exact extendsTo_trans (hf a b) (ih (f a b))

theorem procBlock_fwd (s : SState) (b : List Char) :
    extendsTo (stateForwards s) (stateForwards (procBlock s b)) :=
  foldl_ext stateForwards procCore procCore_fwd _ s

theorem procBlocks_fwd (s : SState) (bs : List (List Char)) :
    extendsTo (stateForwards s) (stateForwards (procBlocks s bs)) :=
  foldl_ext stateForwards procBlock procBlock_fwd bs s

theorem feed_fwd (p : SState × List Char) (c : List Char) :
    extendsTo (stateForwards p.1) (stateForwards (feedChunk p c).1) := by
  obtain ⟨s, buf⟩ := p
  exact procBlocks_fwd s _

theorem runBody_forwards (chunks : List (List Char)) :
    (runBody chunks).forwards = stateForwards (List.foldl feedChunk (initState, []) chunks).1 := by
  unfold runBody
  cases hs : (List.foldl feedChunk (initState, []) chunks).1 <;> simp [finalize, stateForwards]

theorem runCancelAt_forwards (k : Nat) (chunks : List (List Char)) :
    (runCancelAt k chunks).forwards =
      stateForwards (List.foldl feedChunk (initState, []) (chunks.take k)).1 := by
  unfold runCancelAt
  cases hs : (List.foldl feedChunk (initState, []) (chunks.take k)).1 <;>
    simp [stateForwards]

theorem cancel_forwards_ext (k : Nat) (chunks : List (List Char)) :
    extendsTo (runCancelAt k chunks).forwards (runBody chunks).forwards := by
  rw [runBody_forwards, runCancelAt_forwards]
  conv_rhs => rw [← List.take_append_drop k chunks]
  rw [List.foldl_append]
  exact foldl_ext (fun p => stateForwards p.1) feedChunk feed_fwd (chunks.drop k) _

/-- C5: `cancel` during an active stream.  (i) `abortStream` on an idle
component (no active controller) is a no-op.  (ii) When the stream is still
running after the chunks read so far, cancellation terminates the run with
the distinguished `cancelled` status — not `errored` — keeping exactly the
accumulated text and forwarded events produced so far and persisting
nothing.  (iii) The events delivered under cancellation are a prefix of the
uncancelled run's events: cancellation delivers no further events.
(iv) After `abortStream`, the component accepts a subsequent send (the
`streaming` guard is cleared). -/
theorem cancel_terminates_and_returns_idle :
    (∀ u : UiState, u.streamActive = false → abortStream u = u)
  ∧ (∀ (k : Nat) (chunks : List (List Char)) (acc : List Char) (fwd : List (List Char)),
      (List.foldl feedChunk (initState, []) (chunks.take k)).1 = .running acc fwd →
      runCancelAt k chunks = ⟨.cancelled, acc, fwd, false⟩)
  ∧ (∀ (k : Nat) (chunks : List (List Char)),
      extendsTo (runCancelAt k chunks).forwards (runBody chunks).forwards)
  ∧ (∀ u : UiState, acceptsSend (abortStream u) = true) := by
  refine ⟨?_, ?_, ?_, ?_⟩
  · intro u h
    unfold abortStream
    rw [h]
    simp
  · intro k chunks acc fwd h
    unfold runCancelAt
    rw [h]
  · exact cancel_forwards_ext
  · intro u
    obtain ⟨b⟩ := u
    cases b <;> rfl

theorem cancel_terminates_and_returns_idle_witness :
    abortStream ⟨false⟩ = ⟨false⟩
  ∧ runCancelAt 1 ["data: \x7b\"chunk\":\"a\"\x7d\n\n".toList, "x".toList] =
      ⟨.cancelled, "a".toList, ["a".toList], false⟩ :=
  ⟨cancel_terminates_and_returns_idle.1 ⟨false⟩ rfl,
   cancel_terminates_and_returns_idle.2.1 1 _ _ _ (by decide)⟩

/-- C6 (amended): the assistant message is persisted exactly once,
precisely when the run terminates with status `done` ([DONE] sentinel) or
`eos` (clean end-of-connection) and the accumulated text is non-empty
after trimming; it is never persisted on `errored`, `crashed` or
`cancelled` terminations, nor when the accumulated text is
whitespace-only. -/
theorem persistence_exactly_on_successful_completion
    (chunks : List (List Char)) (k : Nat) :
    (runBody chunks).persisted =
        (statusPersists (runBody chunks).status && !(jsTrim (runBody chunks).acc).isEmpty)
  ∧ (runCancelAt k chunks).persisted =
        (statusPersists (runCancelAt k chunks).status &&
          !(jsTrim (runCancelAt k chunks).acc).isEmpty) :=
  ⟨runBody_persistOk chunks, runCancelAt_persistOk k chunks⟩

/-- C6 counterexample: a stream consisting of only the `[DONE]` sentinel
reaches the Done outcome, yet the assistant message is not persisted
(`if (accumulated.trim())` fails), contradicting the claim that
persistence is invoked exactly once whenever the stream reaches Done. -/
theorem persistence_claim_counterexample :
    (runBody [doneTail]).status = .done ∧ (runBody [doneTail]).persisted = false := by
  decide

theorem procBlock_doneBlock (acc : List Char) (fwd : List (List Char)) :
    procBlock (.running acc fwd) ("data: [DONE]".toList) =
      .halted ⟨.done, acc, fwd, !(jsTrim acc).isEmpty⟩ := rfl

theorem splitStream_doneTail : splitStream doneTail = (["data: [DONE]".toList], []) := by
  decide

/-- C2 (amended): for every response body that ends at a block boundary
(empty split remainder) and whose processing is still running after the
body is consumed (no error line, no embedded sentinel, no line decoding to
JSON null), the body followed by a `[DONE]` block and the body alone yield
the same final accumulated text, the same forwarded events and the same
persistence; the former terminates as Done, the latter as a clean
end-of-stream — both successful, neither an error. -/
theorem done_sentinel_vs_clean_close (C : List Char)
    (h1 : (splitStream C).2 = [])
    (h2 : isRunningState (List.foldl feedChunk (initState, []) [C]).1 = true) :
    (runBody [C ++ doneTail]).status = .done ∧
    (runBody [C]).status = .eos ∧
    (runBody [C ++ doneTail]).acc = (runBody [C]).acc ∧
    (runBody [C ++ doneTail]).forwards = (runBody [C]).forwards ∧
    (runBody [C ++ doneTail]).persisted = (runBody [C]).persisted := by
  have hsimp : ∀ D : List Char, List.foldl feedChunk (initState, []) [D] =
      (procBlocks initState (splitStream D).1, (splitStream D).2) := by
    intro D; simp [feedChunk]
  rw [hsimp] at h2
  cases hs : procBlocks initState (splitStream C).1 with
  | halted hh => rw [hs] at h2; simp [isRunningState] at h2
  | running acc fwd =>
    have hsplit : splitStream (C ++ doneTail) =
        ((splitStream C).1 ++ ["data: [DONE]".toList], []) := by
      rw [splitStream_append, h1]
      simp [splitStream_doneTail]
    unfold runBody
    rw [hsimp, hsimp, hsplit]
    simp only [procBlocks_append, hs]
    rw [show procBlocks (SState.running acc fwd) [("data: [DONE]".toList)] =
          procBlock (SState.running acc fwd) ("data: [DONE]".toList) from rfl,
        procBlock_doneBlock]
    simp [finalize]

theorem done_sentinel_vs_clean_close_witness :
    (runBody [("data: \x7b\"chunk\":\"hi\"\x7d\n\n".toList) ++ doneTail]).status = .done ∧
    (runBody ["data: \x7b\"chunk\":\"hi\"\x7d\n\n".toList]).status = .eos ∧
    (runBody [("data: \x7b\"chunk\":\"hi\"\x7d\n\n".toList) ++ doneTail]).acc =
      (runBody ["data: \x7b\"chunk\":\"hi\"\x7d\n\n".toList]).acc ∧
    (runBody [("data: \x7b\"chunk\":\"hi\"\x7d\n\n".toList) ++ doneTail]).forwards =
      (runBody ["data: \x7b\"chunk\":\"hi\"\x7d\n\n".toList]).forwards ∧
    (runBody [("data: \x7b\"chunk\":\"hi\"\x7d\n\n".toList) ++ doneTail]).persisted =
      (runBody ["data: \x7b\"chunk\":\"hi\"\x7d\n\n".toList]).persisted :=
  done_sentinel_vs_clean_close ("data: \x7b\"chunk\":\"hi\"\x7d\n\n".toList) (by decide) (by decide)

/-- C2 counterexample: the claim quantifies over every response body, but a
body whose content is an error event makes both runs — with and without the
trailing `[DONE]` — terminate as Errored, contradicting "both runs of send
terminate successfully without error". -/
theorem done_sentinel_claim_counterexample :
    (runBody [("data: \x7b\"error\":\"boom\"\x7d\n\n".toList) ++ doneTail]).status =
      .errored ("boom".toList)
  ∧ (runBody ["data: \x7b\"error\":\"boom\"\x7d\n\n".toList]).status = .errored ("boom".toList) := by
  decide

theorem foldl_fixed {α : Type} {β : Type} (f : α → β → α) (a : α) (hf : ∀ b, f a b = a) :
    ∀ l : List β, List.foldl f a l = a := by
  intro l
  induction l with
  | nil => rfl
  | cons b bs ih => rw [List.foldl_cons, hf b, ih]

theorem procBlock_halted (h : Halt) (b : List Char) : procBlock (.halted h) b = .halted h :=
  foldl_fixed procCore _ (fun _ => rfl) _

theorem procBlocks_halted (h : Halt) (L : List (List Char)) :
    procBlocks (.halted h) L = .halted h :=
  foldl_fixed procBlock _ (procBlock_halted h) L

theorem splitNL_no_newline : ∀ (l : List Char), '\n' ∉ l → splitNL l = [l] := by
  intro l
  induction l with
  | nil => intro _; rfl
  | cons c rest ih =>
    intro h
    simp only [List.mem_cons, not_or] at h
    simp only [splitNL]
    rw [if_neg (fun h0 => h.1 h0.symm), ih h.2]

/-- C3 (amended): if the stream is still running after the blocks `P`, a
single-line block whose stripped line decodes to an object with a truthy
`error` field terminates the whole run as Errored carrying exactly that
field's message: whatever blocks `R` follow in the buffered input are never
processed, the accumulator is left as it was, and no further deltas are
forwarded (the forwarded list stays `fwd`).  The amendment over the claim
as frozen: the error field must be truthy (a falsy value such as `""` is
ignored by `if (obj.error)`), and no earlier line may already have
terminated the stream. -/
theorem error_field_halts_stream (P R : List (List Char)) (l : List Char)
    (v e : JsonValue) (acc : List Char) (fwd : List (List Char))
    (hP : procBlocks initState P = .running acc fwd)
    (hnl : '\n' ∉ l)
    (hp : jsonParse (stripData l) = some v)
    (hd : jsTrim (stripData l) ≠ doneLit)
    (he : lookupField v errorKey = some e)
    (ht : truthy e = true) :
    procBlocks initState (P ++ l :: R) = .halted ⟨.errored (jsToStr e), acc, fwd, false⟩ := by
  have hvne : stripData l ≠ [] := by
    intro h0
    rw [h0] at hp
    have h2 : (none : Option JsonValue) = some v := hp
    cases h2
  have hstep : procCore (.running acc fwd) (stripData l) =
      .halted ⟨.errored (jsToStr e), acc, fwd, false⟩ := by
    cases v with
    | jobj fs =>
      simp only [procCore]
      rw [if_neg hvne, if_neg hd, hp]
      simp [he, ht, isNull]
    | jnull => simp [lookupField] at he
    | jbool b => simp [lookupField] at he
    | jnum a b c d => simp [lookupField] at he
    | jstr s => simp [lookupField] at he
    | jarr a => simp [lookupField] at he
  have hb : procBlock (SState.running acc fwd) l = procCore (SState.running acc fwd) (stripData l) := by
    unfold procBlock
    rw [splitNL_no_newline l hnl]
    rfl
  rw [procBlocks_append, hP,
      show procBlocks (SState.running acc fwd) (l :: R) =
        procBlocks (procBlock (SState.running acc fwd) l) R from rfl,
      hb, hstep, procBlocks_halted]

theorem error_field_halts_stream_witness :
    procBlocks initState ([] ++ ("data: \x7b\"error\":\"boom\"\x7d".toList) ::
        ["data: \x7b\"chunk\":\"zz\"\x7d".toList]) =
      .halted ⟨.errored ("boom".toList), [], [], false⟩ :=
  error_field_halts_stream [] ["data: \x7b\"chunk\":\"zz\"\x7d".toList]
    ("data: \x7b\"error\":\"boom\"\x7d".toList)
    (.jobj [("error".toList, .jstr ("boom".toList))]) (.jstr ("boom".toList)) [] []
    rfl (by decide) rfl (by decide) rfl rfl

/-- C3 counterexample: a line decoding to an object carrying an `error`
field whose value is the empty string (falsy) does not terminate the
stream: the run continues, forwards the later chunk `"x"` and completes as
Done — contradicting the claim that any line decoding to an object
carrying an error field terminates the stream as Errored with no further
deltas. -/
theorem error_field_claim_counterexample :
    (runBody ["data: \x7b\"error\":\"\"\x7d\n\ndata: \x7b\"chunk\":\"x\"\x7d\n\ndata: [DONE]\n\n".toList]).status =
      .done
  ∧ (runBody ["data: \x7b\"error\":\"\"\x7d\n\ndata: \x7b\"chunk\":\"x\"\x7d\n\ndata: [DONE]\n\n".toList]).forwards =
      ["x".toList] := by
  decide

/-- C4: per-line contributions, for any prior accumulator and forwarded
list: a block line `data: {"chunk":"foo"}` appends exactly `foo` to the
accumulator and forwards the update; `data: {"partial":"bar"}` appends
exactly `bar`; `data: not-json` fails structured decoding, so its literal
stripped text `not-json` is appended as-is — and in all three cases the
stream keeps running (the malformed line does not abort it). -/
theorem line_contributions (acc : List Char) (fwd : List (List Char)) :
    procBlock (.running acc fwd) ("data: \x7b\"chunk\":\"foo\"\x7d".toList) =
      .running (acc ++ "foo".toList) (fwd ++ [acc ++ "foo".toList])
  ∧ procBlock (.running acc fwd) ("data: \x7b\"partial\":\"bar\"\x7d".toList) =
      .running (acc ++ "bar".toList) (fwd ++ [acc ++ "bar".toList])
  ∧ procBlock (.running acc fwd) ("data: not-json".toList) =
      .running (acc ++ "not-json".toList) (fwd ++ [acc ++ "not-json".toList]) :=
  ⟨rfl, rfl, rfl⟩

theorem strip_unmarked (l : List Char) (h : l.take 5 ≠ dataColon) : stripData l = l := by
  unfold stripData
  rw [if_neg h]

/-- C9: the data marker is optional.  Stripping removes a leading `data:`
together with at most one following space (`data:␣␣x` keeps the second
space), leaves a line without the marker unchanged, and a marked line is
interpreted by the per-line processor exactly like the unmarked line with
the same content. -/
theorem data_marker_optional (s : SState) (l : List Char) (h : l.take 5 ≠ dataColon) :
    stripData ("data: ".toList ++ l) = l
  ∧ stripData l = l
  ∧ stripData ("data:".toList ++ ' ' :: ' ' :: l) = ' ' :: l
  ∧ procCore s (stripData ("data: ".toList ++ l)) = procCore s (stripData l) := by
  refine ⟨rfl, strip_unmarked l h, rfl, ?_⟩
  rw [show stripData ("data: ".toList ++ l) = l from rfl, strip_unmarked l h]

theorem data_marker_optional_witness :
    stripData ("data: ".toList ++ "hi".toList) = "hi".toList
  ∧ stripData ("hi".toList) = "hi".toList
  ∧ stripData ("data:".toList ++ ' ' :: ' ' :: "hi".toList) = ' ' :: "hi".toList
  ∧ procCore initState (stripData ("data: ".toList ++ "hi".toList)) =
      procCore initState (stripData ("hi".toList)) :=
  data_marker_optional initState ("hi".toList) (by decide)

theorem procChunk_chunk (acc : List Char) (fwd : List (List Char)) (v : JsonValue)
    (c : JsonValue) (hc : lookupField v chunkKey = some c) (htc : truthy c = true) :
    procChunk acc fwd v = .running (acc ++ jsToStr c) (fwd ++ [acc ++ jsToStr c]) := by
  unfold procChunk
  rw [hc]
  simp [htc]

/-- C10 (amended): for a line decoding to an object that carries both a
truthy `chunk` field and a truthy `partial` field — and no truthy `error`
field, which would terminate the stream first — only the `chunk` text is
appended and forwarded; the `partial` field is ignored (`chunk` takes
strict precedence via the `else if`). -/
theorem chunk_takes_precedence (l : List Char) (fs : List (List Char × JsonValue))
    (c p : JsonValue) (acc : List Char) (fwd : List (List Char))
    (hp : jsonParse l = some (.jobj fs))
    (hd : jsTrim l ≠ doneLit)
    (hne : ∀ e, lookupField (.jobj fs) errorKey = some e → truthy e = false)
    (hc : lookupField (.jobj fs) chunkKey = some c)
    (htc : truthy c = true)
    (_hpp : lookupField (.jobj fs) altKey = some p)
    (_htp : truthy p = true) :
    procCore (.running acc fwd) l = .running (acc ++ jsToStr c) (fwd ++ [acc ++ jsToStr c]) := by
  have hlne : l ≠ [] := by
    intro h0
    rw [h0] at hp
    have h2 : (none : Option JsonValue) = some (JsonValue.jobj fs) := hp
    cases h2
  simp only [procCore]
  rw [if_neg hlne, if_neg hd, hp]
  cases herr : lookupField (JsonValue.jobj fs) errorKey with
  | none => simp [herr, isNull, procChunk_chunk acc fwd _ _ hc htc]
  | some e =>
    have ht0 := hne e herr
    simp [herr, ht0, isNull, procChunk_chunk acc fwd _ _ hc htc]

theorem chunk_takes_precedence_witness :
    procCore (.running [] []) ("\x7b\"chunk\":\"a\",\"partial\":\"b\"\x7d".toList) =
      .running ("a".toList) ["a".toList] :=
  chunk_takes_precedence ("\x7b\"chunk\":\"a\",\"partial\":\"b\"\x7d".toList)
    [("chunk".toList, .jstr ("a".toList)), ("partial".toList, .jstr ("b".toList))]
    (.jstr ("a".toList)) (.jstr ("b".toList)) [] []
    rfl (by decide) (fun e h => Option.noConfusion h) rfl rfl rfl rfl

/-- C10 counterexample: an object carrying both `chunk` and `partial` with
truthy values but also a truthy `error` field appends nothing at all — the
stream halts as Errored — contradicting the claim as stated, which asserts
the chunk text is appended for every such object. -/
theorem chunk_precedence_claim_counterexample :
    jsonParse ("\x7b\"error\":\"boom\",\"chunk\":\"a\",\"partial\":\"b\"\x7d".toList) =
      some (.jobj [("error".toList, .jstr ("boom".toList)), ("chunk".toList, .jstr ("a".toList)),
                   ("partial".toList, .jstr ("b".toList))])
  ∧ truthy (.jstr ("a".toList)) = true
  ∧ truthy (.jstr ("b".toList)) = true
  ∧ procCore initState ("\x7b\"error\":\"boom\",\"chunk\":\"a\",\"partial\":\"b\"\x7d".toList) =
      .halted ⟨.errored ("boom".toList), [], [], false⟩ :=
  ⟨rfl, rfl, rfl, rfl⟩

/-- C7: `sendMessage` trims the input; a non-empty trimmed message issues
exactly one request carrying the session id, the trimmed message and the
model; an empty or whitespace-only message issues zero requests (silent
no-op, nothing surfaced). -/
theorem message_guard (sid mdl input : List Char) :
    (jsTrim input ≠ [] → chatRequests sid mdl input = [⟨sid, jsTrim input, mdl⟩])
  ∧ (jsTrim input = [] → chatRequests sid mdl input = []) := by
  constructor
  · intro h; unfold chatRequests; rw [if_neg h]
  · intro h; unfold chatRequests; rw [if_pos h]

theorem message_guard_witness :
    chatRequests ("s1".toList) ("m1".toList) ("  hi ".toList) =
      [⟨"s1".toList, "hi".toList, "m1".toList⟩]
  ∧ chatRequests ("s1".toList) ("m1".toList) ("   ".toList) = [] := by
  constructor
  · exact ((message_guard ("s1".toList) ("m1".toList) ("  hi ".toList)).1 (by decide)).trans
      (by decide)
  · exact (message_guard ("s1".toList) ("m1".toList) ("   ".toList)).2 (by decide)

/-- C8 (amended): on a non-success HTTP status the send fails with the
server-provided `detail` field when that field is present and truthy
(non-empty); when the body did not parse, the field is absent, or the
field is falsy (e.g. the empty string), the surfaced message falls back to
the transport status text. -/
theorem server_error_detail (st : List Char) (v : JsonValue) (d : JsonValue) :
    (lookupField v ("detail".toList) = some d → truthy d = true →
        preflight false (some v) st = .serverError (jsToStr d))
  ∧ (lookupField v ("detail".toList) = none → preflight false (some v) st = .serverError st)
  ∧ preflight false none st = .serverError st
  ∧ (lookupField v ("detail".toList) = some d → truthy d = false →
        preflight false (some v) st = .serverError st) := by
  refine ⟨?_, ?_, rfl, ?_⟩
  · intro h ht
    simp only [preflight, failureMessage]
    rw [if_neg (by decide), h]
    simp [ht]
  · intro h
    simp only [preflight, failureMessage]
    rw [if_neg (by decide), h]
  · intro h ht
    simp only [preflight, failureMessage]
    rw [if_neg (by decide), h]
    simp [ht]

theorem server_error_detail_witness :
    preflight false (some (.jobj [("detail".toList, .jstr ("nope".toList))])) ("Bad".toList) =
      .serverError ("nope".toList)
  ∧ preflight false none ("Bad".toList) = .serverError ("Bad".toList) :=
  ⟨(server_error_detail ("Bad".toList) (.jobj [("detail".toList, .jstr ("nope".toList))])
      (.jstr ("nope".toList))).1 rfl rfl,
   (server_error_detail ("Bad".toList) .jnull .jnull).2.2.1⟩

/-- C8 counterexample: a response body that does provide a `detail` field,
with the empty string as its value, does not surface that detail — the
falsy check `err?.detail || res.statusText` falls back to the status text,
contradicting the claim that the surfaced message is taken from the detail
field whenever it is provided. -/
theorem server_error_claim_counterexample :
    preflight false (some (.jobj [("detail".toList, .jstr [])])) ("Bad Request".toList) =
      .serverError ("Bad Request".toList)
  ∧ ("Bad Request".toList ≠ ([] : List Char)) :=
  ⟨rfl, by decide⟩

end PalmsChat
